import Mathlib

/-!
Verification development for the `xerus` CLI wrapper.

This file gives a shallow embedding, in Lean 4, of the pure logic of the
repository's Python source: configuration loading and environment-variable
substitution (`xerus/config.py`), session persistence (`xerus/sessions.py`),
tool-specification parsing and dispatch (`xerus/tools/manager.py`),
manager-agent assembly (`xerus/tools/manager_factory.py`), CLI error handling
(`xerus/error_handler.py`), keyword-argument parsing (`xerus/utils.py`) and the
tool-deduplication step of `create_agent` (`xerus/agent.py`).

JSON documents are modelled by the inductive `ConfigValue`; effectful
ingredients (the process environment, the filesystem, network loaders) are
modelled as explicit parameters; Python exceptions are modelled with `Except`.
-/

namespace Xerus

/-- A JSON-representable value, as produced by Python's `json.load`.
Numbers are modelled by `Int` (the configuration values the claims concern are
strings, mappings and lists; no claim depends on float arithmetic). Python
`dict`s appear as insertion-ordered association lists. -/
inductive ConfigValue where
  | null : ConfigValue
  | bool (b : Bool) : ConfigValue
  | num (n : Int) : ConfigValue
  | str (s : String) : ConfigValue
  | arr (items : List ConfigValue) : ConfigValue
  | obj (fields : List (String × ConfigValue)) : ConfigValue
deriving Repr

/-- Python truthiness (`bool(v)`) of a JSON value: `None`, `False`, `0`, `""`,
`[]` and `{}` are falsy, everything else truthy. -/
def ConfigValue.truthy : ConfigValue → Bool
  | .null => false
  | .bool b => b
  | .num n => n != 0
  | .str s => !s.data.isEmpty
  | .arr items => !items.isEmpty
  | .obj fields => !fields.isEmpty

/-- Python `d.get(key)` on a dict: the value stored under `key`, if any.
On a non-dict value the lookup is undefined in Python; we return `none`. -/
def ConfigValue.get : ConfigValue → String → Option ConfigValue
  | .obj fields, key => fields.lookup key
  | _, _ => none

/-- Python `d.get(key, default)`. -/
def ConfigValue.getD (v : ConfigValue) (key : String) (dflt : ConfigValue) : ConfigValue :=
  (v.get key).getD dflt

/-! ## Session persistence (`xerus/sessions.py`) -/

/-- Model of `save_conversation_history` (sessions.py:41-47): the rolling history array
actually written to `~/.xerus/history.json`.  The source computes
`history[-50:] if len(history) > 50 else history`; Python's `history[-50:]`
is `drop (length - 50)`. -/
def saveConversationHistory (history : List ConfigValue) : List ConfigValue :=
  if history.length > 50 then history.drop (history.length - 50) else history

/-- The JSON document `save_session` (sessions.py:49-58) serialises to the
session file: `{"history": history, "timestamp": ..., "metadata": metadata or {}}`.
`metadata` is `none` when the Python caller passes `None`.  `json.dump`
followed by `json.load` round-trips a JSON-representable value, so the file is
modelled as holding the `ConfigValue` itself. -/
def saveSession (history : List ConfigValue) (timestamp : String)
    (metadata : Option (List (String × ConfigValue))) : ConfigValue :=
  ConfigValue.obj
    [("history", ConfigValue.arr history),
     ("timestamp", ConfigValue.str timestamp),
     ("metadata", ConfigValue.obj (match metadata with
        | some m => m
        | none => []))]

/-- Model of `load_session` (sessions.py:60-63): `json.load` of the session file, i.e.
the stored document itself in this embedding. -/
def loadSession (fileContent : ConfigValue) : ConfigValue := fileContent

/-! ## Keyword-argument parsing (`xerus/utils.py`) -/

/-- The key of a `key=value` argument: everything before the first `=`
(Python `arg.split("=", 1)[0]`). -/
def argKey (arg : String) : String :=
  String.mk (arg.data.takeWhile (fun c => c ≠ '='))

/-- The value of a `key=value` argument: everything after the first `=`
(Python `arg.split("=", 1)[1]`); the value itself may contain `=`. -/
def argVal (arg : String) : String :=
  String.mk ((arg.data.dropWhile (fun c => c ≠ '=')).drop 1)

/-- Python `d[k] = v` on an insertion-ordered dict rendered as an association
list: overwrite in place when the key is present, append otherwise. -/
def pyDictSet {B : Type} (d : List (String × B)) (k : String) (v : B) :
    List (String × B) :=
  if d.any (fun p => p.1 = k) then
    d.map (fun p => if p.1 = k then (k, v) else p)
  else
    d ++ [(k, v)]

/-- Loop body of `parse_kwargs` (utils.py:5-13), processing the argument list
left to right with the accumulated dict. -/
def parseKwargsAux (acc : List (String × String)) :
    List String → Except String (List (String × String))
  | [] => .ok acc
  | arg :: rest =>
    if arg.data.contains '=' = false then
      .error ("Invalid argument format: " ++ arg)
    else
      parseKwargsAux (pyDictSet acc (argKey arg) (argVal arg)) rest

/-- Model of `parse_kwargs` (utils.py:5-13): parse `key=value` arguments into a dict;
a `ValueError` is modelled as `.error`. -/
def parseKwargs (rawKwargs : List String) : Except String (List (String × String)) :=
  parseKwargsAux [] rawKwargs

/-- Specification-side helper for the `parse_kwargs` claim: the value carried
by the last element of `raw` whose text before its first `=` is `k`
(splitting each element at its first `=` only). -/
def lastAssign (k : String) : List String → Option String
  | [] => none
  | arg :: rest =>
    match lastAssign k rest with
    | some v => some v
    | none => if argKey arg = k then some (argVal arg) else none

/-! ## Environment-variable substitution (`xerus/config.py`) -/

/-- The process environment: `os.environ.get`. -/
def Env : Type := String → Option String

/-- Python `os.environ.get(varName, defaultValue)`. -/
def envGet (env : Env) (varName : String) (defaultValue : String) : String :=
  (env varName).getD defaultValue

/-- Character class of the regex group `[^\x7d:]+` (the variable name). -/
def isNameChar (c : Char) : Bool := c != '\x7d' && c != ':'

/-- Character class of the regex group `[^\x7d]*` (the default value). -/
def isNonBrace (c : Char) : Bool := c != '\x7d'

/-- Attempt to match the regex `\\$\x7b([^\x7d:]+)(?::([^\x7d]*))?\x7d` right
after its opening `$\x7b`: greedily read the variable name (one or more
characters other than `\x7d` and `:`), then either a closing `\x7d`, or a `:`,
a default (characters other than `\x7d`) and a closing `\x7d`.  Returns the
name, the optional default, and the characters after the match.  The greedy
reads are exact: no shorter group can succeed where the maximal one fails,
because the characters a group admits are exactly those its follow-set
excludes. -/
def findVar (cs : List Char) : Option (String × Option String × List Char) :=
  if (cs.takeWhile isNameChar).isEmpty then none
  else
    match cs.dropWhile isNameChar with
    | '\x7d' :: tail => some (String.mk (cs.takeWhile isNameChar), none, tail)
    | ':' :: afterColon =>
      (match afterColon.dropWhile isNonBrace with
       | '\x7d' :: tail =>
         some (String.mk (cs.takeWhile isNameChar),
               some (String.mk (afterColon.takeWhile isNonBrace)), tail)
       | _ => none)
    | _ => none

/-- Attempt to match the whole placeholder regex at the head of the character
list: `$`, `\x7b`, then `findVar`. -/
def matchPlaceholder : List Char → Option (String × Option String × List Char)
  | c1 :: c2 :: rest =>
    if c1 = '$' then if c2 = '\x7b' then findVar rest else none else none
  | _ => none

theorem dropWhile_length_le {α : Type} (p : α → Bool) (l : List α) :
    (l.dropWhile p).length ≤ l.length := by
  induction l with
  | nil => simp [List.dropWhile]
  | cons a as ih =>
    rw [List.dropWhile]
    cases p a
    · simp
    · simp only [List.length_cons]
      omega

theorem findVar_length {cs : List Char} {name : String} {dflt : Option String}
    {tail : List Char} (h : findVar cs = some (name, dflt, tail)) :
    tail.length < cs.length := by
  unfold findVar at h
  split at h
  · simp at h
  · split at h
    case h_1 tl heq =>
      have h1 : (cs.dropWhile isNameChar).length ≤ cs.length := dropWhile_length_le _ _
      rw [heq] at h1
      simp only [Option.some.injEq, Prod.mk.injEq] at h
      obtain ⟨-, -, rfl⟩ := h
      simp only [List.length_cons] at h1
      omega
    case h_2 afterColon heq =>
      split at h
      case h_1 tl2 heq2 =>
        have h1 : (cs.dropWhile isNameChar).length ≤ cs.length := dropWhile_length_le _ _
        have h2 : (afterColon.dropWhile isNonBrace).length ≤ afterColon.length :=
          dropWhile_length_le _ _
        rw [heq] at h1
        rw [heq2] at h2
        simp only [Option.some.injEq, Prod.mk.injEq] at h
        obtain ⟨-, -, rfl⟩ := h
        simp only [List.length_cons] at h1 h2
        omega
      case h_2 => simp at h
    case h_3 => simp at h

theorem matchPlaceholder_length {cs : List Char} {name : String}
    {dflt : Option String} {tail : List Char}
    (h : matchPlaceholder cs = some (name, dflt, tail)) :
    tail.length + 2 ≤ cs.length := by
  unfold matchPlaceholder at h
  split at h
  case h_1 c1 c2 rest =>
    split at h
    · split at h
      · have := findVar_length h
        simp only [List.length_cons]
        omega
      · simp at h
    · simp at h
  case h_2 => simp at h

/-- The scanning loop of Python's `re.sub(pattern, replace_var, value)` for
the pattern of `substitute_env_vars` (config.py:46-60): at each position, if
the placeholder regex matches, emit the replacement — `os.environ.get(name,
default)` with default `""` when the `:default` group is absent — and resume
after the match; otherwise emit the character and advance by one.  (A match
can only begin at `$`, so only positions whose character is `$` need be
tried.) -/
def substChars (env : Env) : List Char → List Char
  | [] => []
  | c :: cs =>
    match h : matchPlaceholder (c :: cs) with
    | some (name, dflt, tail) =>
      (envGet env name (dflt.getD "")).data ++ substChars env tail
    | none => c :: substChars env cs
termination_by l => l.length
decreasing_by
  · have := matchPlaceholder_length h
    simp only [List.length_cons] at this ⊢
    omega
  · simp

mutual
/-- Model of `substitute_env_vars` (config.py:46-69): recursively substitute
environment variables in configuration values; strings are rewritten by
`re.sub`, dicts and lists are walked recursively, other leaves are returned
unchanged. -/
def substituteEnvVars (env : Env) : ConfigValue → ConfigValue
  | .null => .null
  | .bool b => .bool b
  | .num n => .num n
  | .str s => .str (String.mk (substChars env s.data))
  | .arr items => .arr (substituteEnvVarsList env items)
  | .obj fields => .obj (substituteEnvVarsFields env fields)

/-- Elementwise substitution in a JSON list (the list comprehension of
config.py:66). -/
def substituteEnvVarsList (env : Env) : List ConfigValue → List ConfigValue
  | [] => []
  | v :: rest => substituteEnvVars env v :: substituteEnvVarsList env rest

/-- Valuewise substitution in a JSON object (the dict comprehension of
config.py:63). -/
def substituteEnvVarsFields (env : Env) :
    List (String × ConfigValue) → List (String × ConfigValue)
  | [] => []
  | (k, v) :: rest => (k, substituteEnvVars env v) :: substituteEnvVarsFields env rest
end

/-! ## Configuration loading (`xerus/config.py`) -/

/-- The observable state of `~/.xerus/config.json` as `load_config` finds it:
missing, unreadable, readable but not valid JSON, or parsed to a JSON
document. -/
inductive ConfigFileState where
  | missing : ConfigFileState
  | readFailure (message : String) : ConfigFileState
  | invalidJson (message : String) : ConfigFileState
  | parsed (document : ConfigValue) : ConfigFileState

/-- Model of `load_config` (config.py:72-107): returns `{}` when the file is missing,
when `json.load` raises `JSONDecodeError`, or when any other exception occurs
while reading; on success returns the parsed document with environment
substitution applied.  The function is total — the Python code catches every
exception in these cases and returns normally. -/
def loadConfig (env : Env) : ConfigFileState → ConfigValue
  | .missing => .obj []
  | .readFailure _ => .obj []
  | .invalidJson _ => .obj []
  | .parsed document => substituteEnvVars env document

/-! ## Error taxonomy (`xerus/errors.py`) -/

/-- The concrete exception classes of `errors.py`, each carrying the message
and the optional recovery hint its constructor stores.  `xerusBase`,
`modelError` and `toolError` model direct instances of the base classes
`XerusError`, `ModelError` and `ToolError` (all instantiable in Python). -/
inductive XerusExc where
  | xerusBase (message : String) (recoveryHint : Option String)
  | modelError (message : String) (recoveryHint : Option String)
  | modelInitializationError (message : String) (recoveryHint : Option String)
  | modelNotFoundError (message : String) (recoveryHint : Option String)
  | modelConfigurationError (message : String) (recoveryHint : Option String)
  | authenticationError (message : String) (recoveryHint : Option String)
  | toolError (message : String) (recoveryHint : Option String)
  | toolLoadError (message : String) (recoveryHint : Option String)
  | toolExecutionError (message : String) (recoveryHint : Option String)
  | agentRuntimeError (message : String) (recoveryHint : Option String)
  | inputError (message : String) (recoveryHint : Option String)
  | networkError (message : String) (recoveryHint : Option String)
  | apiLimitError (message : String) (recoveryHint : Option String)
  | environmentError (message : String) (recoveryHint : Option String)
deriving DecidableEq, Repr

/-- A Python exception as seen by `handle_command_errors`: either one of the
Xerus classes or any other `Exception` (e.g. `ValueError`). -/
inductive PyException where
  | xerus (e : XerusExc)
  | valueError (message : String)
  | otherError (message : String)
deriving DecidableEq, Repr

/-! ## Tool-specification parsing (`xerus/tools/manager.py`) -/

/-- The dictionary `parse_tool_spec` returns, one constructor per `"type"`. -/
inductive ParsedSpec where
  | builtIn (name : String)
  | localFile (path : String)
  | hub (repoId : String)
  | space (spaceId : String) (name : Option String) (description : Option String)
  | collection (slug : String)
  | unknown (spec : String)
deriving DecidableEq, Repr

/-- Python `s.split(":", 2)` (at most three parts). -/
def splitColon2 (s : String) : List String :=
  match s.data.dropWhile (fun c => c != ':') with
  | [] => [String.mk (s.data.takeWhile (fun c => c != ':'))]
  | _ :: r1 =>
    match r1.dropWhile (fun c => c != ':') with
    | [] => [String.mk (s.data.takeWhile (fun c => c != ':')),
             String.mk (r1.takeWhile (fun c => c != ':'))]
    | _ :: r2 => [String.mk (s.data.takeWhile (fun c => c != ':')),
                  String.mk (r1.takeWhile (fun c => c != ':')),
                  String.mk r2]

/-- Python `s.split(":", 1)` (at most two parts). -/
def splitColon1 (s : String) : List String :=
  match s.data.dropWhile (fun c => c != ':') with
  | [] => [s]
  | _ :: r1 => [String.mk (s.data.takeWhile (fun c => c != ':')), String.mk r1]

/-- Python `s.lower()`; the prefixes compared against (`hub`, `space`,
`collection`) are ASCII, where `Char.toLower` agrees with Python. -/
def strLower (s : String) : String := String.mk (s.data.map Char.toLower)

/-- Python `s.endswith(t)`. -/
def strEndsWith (s t : String) : Bool := t.data.isSuffixOf s.data

/-- The names registered by `ToolManager._register_built_in_tools`
(manager.py:42-51): the keys of `self.tools` before any further
registration. -/
def builtInToolNames : List String :=
  ["web_search", "python_interpreter", "final_answer", "user_input",
   "duckduckgo_search", "visit_webpage"]

/-- Membership in the default built-in registry. -/
def defaultRegistry (name : String) : Bool := builtInToolNames.contains name

/-- Model of `ToolManager.parse_tool_spec` (manager.py:208-252).  `registry` is
membership in `self.tools` and `fileExists` is `os.path.exists` (the ambient
filesystem), both explicit parameters of the embedding. -/
def parseToolSpec (registry : String → Bool) (fileExists : String → Bool)
    (toolSpec : String) : ParsedSpec :=
  if toolSpec.data.contains ':' = false then
    if registry toolSpec then ParsedSpec.builtIn toolSpec
    else if fileExists toolSpec && strEndsWith toolSpec ".py" then
      ParsedSpec.localFile toolSpec
    else ParsedSpec.unknown toolSpec
  else
    match splitColon2 toolSpec with
    | [] => ParsedSpec.unknown toolSpec
    | p0 :: parts1 =>
      let pfx := strLower p0
      if pfx = "hub" then
        match parts1 with
        | repoId :: _ => ParsedSpec.hub repoId
        | [] => ParsedSpec.unknown toolSpec
      else if pfx = "space" then
        match parts1 with
        | [] => ParsedSpec.unknown toolSpec
        | spaceId :: rest2 =>
          match rest2 with
          | [] => ParsedSpec.space spaceId none none
          | third :: _ =>
            match splitColon1 third with
            | [n] => ParsedSpec.space spaceId (some n) none
            | n :: d :: _ => ParsedSpec.space spaceId (some n) (some d)
            | [] => ParsedSpec.space spaceId none none
      else if pfx = "collection" then
        match parts1 with
        | slug :: _ => ParsedSpec.collection slug
        | [] => ParsedSpec.unknown toolSpec
      else ParsedSpec.unknown toolSpec

/-- Which loader `load_tool_from_spec` hands the specification to, with the
arguments it passes (the loaders themselves perform imports or network
fetches and are outside the embedding). -/
inductive ToolDispatch where
  | builtIn (name : String)
  | localFile (path : String)
  | hub (repoId : String)
  | space (spaceId : String) (name : Option String) (description : Option String)
  | collection (slug : String)
deriving DecidableEq, Repr

/-- Model of `ToolManager.load_tool_from_spec` (manager.py:254-287): parse the
specification and dispatch on its type; an unknown type raises
`ToolLoadError`. -/
def loadToolFromSpec (registry : String → Bool) (fileExists : String → Bool)
    (toolSpec : String) : Except XerusExc ToolDispatch :=
  match parseToolSpec registry fileExists toolSpec with
  | .builtIn name => .ok (.builtIn name)
  | .localFile path => .ok (.localFile path)
  | .hub repoId => .ok (.hub repoId)
  | .space spaceId name description => .ok (.space spaceId name description)
  | .collection slug => .ok (.collection slug)
  | .unknown _ =>
    .error (.toolLoadError
      ("Unknown tool specification format: " ++ toolSpec)
      (some ("Use one of the supported formats: built-in name, local file path, " ++
             "hub:repo_id, space:space_id[:name:desc], collection:slug")))

/-! ## Manager-agent assembly (`xerus/tools/manager_factory.py`) -/

/-- What `ManagerAgentFactory.create_manager_agent` builds on success: the
model client and the manager agent over the collected tool agents.  Clients
and tool agents are opaque library objects, modelled by an arbitrary type. -/
structure ManagerAgent (Client Agent : Type) where
  client : Client
  managedAgents : List Agent
  codeAgent : Bool

/-- Model of `ManagerAgentFactory.create_manager_agent` (manager_factory.py:18-94).
The config-file state and environment feed `load_config`;
`setupAllToolAgents` models `_setup_all_tool_agents` and `createClient`
models `ModelFactory.create_client` (both opaque effects, passed as
parameters).  When the `manager_agent` entry is absent — `config.get`
returns the `{}` default — or is itself falsy (e.g. an empty mapping), a
`ValueError("Manager agent configuration missing")` is raised before either
parameter function is consulted. -/
def createManagerAgent {Client Agent : Type}
    (fileState : ConfigFileState) (env : Env)
    (setupAllToolAgents : ConfigValue → ConfigValue → List Agent)
    (createClient : Option ConfigValue → Option ConfigValue → Option ConfigValue →
      Except PyException Client) :
    Except PyException (ManagerAgent Client Agent) :=
  let config := loadConfig env fileState
  let managerConfig := config.getD "manager_agent" (.obj [])
  if managerConfig.truthy = false then
    .error (.valueError "Manager agent configuration missing")
  else
    let allToolAgents := setupAllToolAgents config managerConfig
    match createClient (managerConfig.get "model_id") (managerConfig.get "api_key")
        (managerConfig.get "api_base") with
    | .error e => .error e
    | .ok client =>
      .ok { client := client, managedAgents := allToolAgents,
            codeAgent := (managerConfig.getD "code_agent" (.bool true)).truthy }

/-! ## CLI error handling (`xerus/error_handler.py`) -/

/-- The console output the wrapper produces for an error: `print_error_panel
(error_type, message, title, recovery_hint)` or `print_auth_error (message,
recovery_hint)` (display.py:185-227). -/
inductive ErrorDisplay where
  | panel (errorType : String) (message : String) (title : String)
      (recoveryHint : Option String)
  | authPanel (message : String) (recoveryHint : Option String)
deriving DecidableEq, Repr

/-- What a wrapped CLI command does when called: return a value or raise. -/
inductive CommandOutcome (α : Type) where
  | returns (value : α)
  | raises (e : PyException)

/-- The observable behaviour of the wrapped command: the wrapped function's
return value passed through unchanged, or a printed panel followed by
`sys.exit(status)`. -/
inductive WrapperResult (α : Type) where
  | returned (value : α)
  | exited (status : Nat) (display : ErrorDisplay)

/-- The `except` chain of `handle_command_errors` (error_handler.py:10-55),
one clause per caught class, in source order; subclasses are listed before
`XerusError`, so each leaf class reaches its own clause and direct instances
of the base classes fall to the `except XerusError` clause; any other
`Exception` falls to the final clause. -/
def exceptionDisplay : PyException → ErrorDisplay
  | .xerus (.authenticationError m h) => .authPanel m h
  | .xerus (.modelNotFoundError m h) => .panel "Model Not Found" m "Model Error" h
  | .xerus (.modelInitializationError m h) =>
      .panel "Model Error" m "Model Initialization Failed" h
  | .xerus (.modelConfigurationError m h) =>
      .panel "Configuration Error" m "Model Configuration Error" h
  | .xerus (.toolLoadError m h) => .panel "Tool Error" m "Tool Loading Failed" h
  | .xerus (.toolExecutionError m h) => .panel "Tool Error" m "Tool Execution Failed" h
  | .xerus (.networkError m h) => .panel "Network Error" m "Connection Failed" h
  | .xerus (.apiLimitError m h) => .panel "API Limit Error" m "API Limit Reached" h
  | .xerus (.agentRuntimeError m h) => .panel "Agent Error" m "Execution Failed" h
  | .xerus (.environmentError m h) =>
      .panel "Environment Error" m "Environment Setup Failed" h
  | .xerus (.inputError m h) => .panel "Input Error" m "Invalid Input" h
  | .xerus (.xerusBase m h) => .panel "Xerus Error" m "Error" h
  | .xerus (.modelError m h) => .panel "Xerus Error" m "Error" h
  | .xerus (.toolError m h) => .panel "Xerus Error" m "Error" h
  | .valueError m =>
      .panel "Unexpected Error" m "Unhandled Error"
        (some "Please report this issue to the Xerus developers")
  | .otherError m =>
      .panel "Unexpected Error" m "Unhandled Error"
        (some "Please report this issue to the Xerus developers")

/-- Model of `handle_command_errors` (error_handler.py:10-55): run the wrapped command
inside `try`; pass a normal return through, and turn every raised exception
into its panel and `sys.exit(1)`. -/
def handleCommandErrors {α : Type} (outcome : CommandOutcome α) : WrapperResult α :=
  match outcome with
  | .returns v => .returned v
  | .raises e => .exited 1 (exceptionDisplay e)

/-! ## Tool deduplication in `create_agent` (`xerus/agent.py`) -/

/-- A loaded tool as `create_agent` sees it: its `.name` attribute plus an
identity (`uid`) distinguishing distinct tool objects that share a name. -/
structure Tool where
  name : String
  uid : Nat
deriving DecidableEq, Repr

/-- The deduplication loop of `create_agent` (agent.py:145-148):
`unique_tools = {}; for tool in available_tools: unique_tools[tool.name] = tool`. -/
def uniqueToolsDict (availableTools : List Tool) : List (String × Tool) :=
  availableTools.foldl (fun d t => pyDictSet d t.name t) []

/-- Model of `list(unique_tools.values())` (agent.py:156): the tool list handed to the
`CodeAgent` constructor. -/
def uniqueToolValues (availableTools : List Tool) : List Tool :=
  (uniqueToolsDict availableTools).map (fun p => p.2)

/-- Specification-side helper: the last tool in `availableTools` whose name
is `n`, if any. -/
def lastToolNamed (n : String) : List Tool → Option Tool
  | [] => none
  | t :: rest =>
    match lastToolNamed n rest with
    | some u => some u
    | none => if t.name = n then some t else none

/-! ## Specification-side template language for the substitution claim

A configuration string is viewed as a sequence of pieces: literal text,
`$\x7bNAME\x7d` placeholders and `$\x7bNAME:default\x7d` placeholders.
`renderTemplate` prints the sequence back to the string the configuration
file holds; `resolveTemplate` is what the spec says the substituted result
must be.  These definitions follow the spec's words, to be compared with the
source-derived `substituteEnvVars`. -/

/-- One piece of a configuration string, as the spec describes it. -/
inductive TemplatePiece where
  | lit (text : String)
  | var (name : String)
  | varDflt (name : String) (dflt : String)
deriving DecidableEq, Repr

/-- Print one piece back to the concrete syntax. -/
def renderPiece : TemplatePiece → String
  | .lit text => text
  | .var name => "$" ++ "\x7b" ++ name ++ "\x7d"
  | .varDflt name dflt => "$" ++ "\x7b" ++ name ++ ":" ++ dflt ++ "\x7d"

/-- Print a piece sequence back to the configuration string. -/
def renderTemplate : List TemplatePiece → String
  | [] => ""
  | p :: ps => renderPiece p ++ renderTemplate ps

/-- What the spec says one piece becomes: literals stay, `$\x7bFOO\x7d`
becomes the environment value when set and `""` otherwise, and
`$\x7bFOO:default\x7d` becomes the environment value when set and the
supplied default otherwise. -/
def resolvePiece (env : Env) : TemplatePiece → String
  | .lit text => text
  | .var name => (env name).getD ""
  | .varDflt name dflt => (env name).getD dflt

/-- What the spec says the whole string becomes. -/
def resolveTemplate (env : Env) : List TemplatePiece → String
  | [] => ""
  | p :: ps => resolvePiece env p ++ resolveTemplate env ps

/-- Well-formedness of a piece: literal text carries no `$` (so it starts no
placeholder), a variable name is nonempty and free of `\x7d` and `:`, a
default is free of `\x7d` — exactly the character classes of the regex. -/
def validPiece : TemplatePiece → Bool
  | .lit text => text.data.all (fun c => c != '$')
  | .var name => !name.data.isEmpty && name.data.all isNameChar
  | .varDflt name dflt =>
      !name.data.isEmpty && name.data.all isNameChar && dflt.data.all isNonBrace

/-! ## General helper lemmas -/

theorem takeWhile_append_sat {α : Type} (p : α → Bool) (xs : List α) (y : α)
    (ys : List α) (hxs : ∀ c ∈ xs, p c = true) (hy : p y = false) :
    (xs ++ y :: ys).takeWhile p = xs := by
  induction xs with
  | nil => simp [List.takeWhile, hy]
  | cons x xt ih =>
    have hx : p x = true := hxs x (List.mem_cons_self x xt)
    have ih2 := ih (fun c hc => hxs c (List.mem_cons_of_mem x hc))
    simp [List.takeWhile_cons, hx, ih2]

theorem dropWhile_append_sat {α : Type} (p : α → Bool) (xs : List α) (y : α)
    (ys : List α) (hxs : ∀ c ∈ xs, p c = true) (hy : p y = false) :
    (xs ++ y :: ys).dropWhile p = y :: ys := by
  induction xs with
  | nil => simp [List.dropWhile, hy]
  | cons x xt ih =>
    have hx : p x = true := hxs x (List.mem_cons_self x xt)
    have ih2 := ih (fun c hc => hxs c (List.mem_cons_of_mem x hc))
    simp [List.dropWhile_cons, hx, ih2]

theorem takeWhile_all {α : Type} (p : α → Bool) (xs : List α)
    (hxs : ∀ c ∈ xs, p c = true) : xs.takeWhile p = xs := by
  induction xs with
  | nil => rfl
  | cons x xt ih =>
    have hx : p x = true := hxs x (List.mem_cons_self x xt)
    have ih2 := ih (fun c hc => hxs c (List.mem_cons_of_mem x hc))
    simp [List.takeWhile_cons, hx, ih2]

theorem dropWhile_all {α : Type} (p : α → Bool) (xs : List α)
    (hxs : ∀ c ∈ xs, p c = true) : xs.dropWhile p = [] := by
  induction xs with
  | nil => rfl
  | cons x xt ih =>
    have hx : p x = true := hxs x (List.mem_cons_self x xt)
    have ih2 := ih (fun c hc => hxs c (List.mem_cons_of_mem x hc))
    simp [List.dropWhile_cons, hx, ih2]

theorem lookup_cons {B : Type} (k k1 : String) (v1 : B) (d : List (String × B)) :
    (((k1, v1) :: d).lookup k) = if k = k1 then some v1 else d.lookup k := by
  by_cases h : k = k1
  · have hb : (k == k1) = true := beq_iff_eq.mpr h
    simp [List.lookup, hb, h]
  · have hb : (k == k1) = false := beq_eq_false_iff_ne.mpr h
    simp [List.lookup, hb, h]

theorem lookup_cons_pair {B : Type} (k : String) (p : String × B)
    (d : List (String × B)) :
    ((p :: d).lookup k) = if k = p.1 then some p.2 else d.lookup k := by
  rcases p with ⟨k1, v1⟩
  exact lookup_cons k k1 v1 d

theorem mem_of_lookup_eq_some {B : Type} {d : List (String × B)} {k : String}
    {v : B} (h : d.lookup k = some v) : (k, v) ∈ d := by
  induction d with
  | nil => simp [List.lookup] at h
  | cons p rest ih =>
    rw [lookup_cons_pair] at h
    by_cases hk : k = p.1
    · rw [if_pos hk] at h
      injection h with h2
      rw [hk, ← h2, Prod.mk.eta]
      exact List.mem_cons_self p rest
    · rw [if_neg hk] at h
      exact List.mem_cons_of_mem p (ih h)

theorem lookup_eq_some_of_mem_of_nodup {B : Type} {d : List (String × B)}
    (hn : (d.map Prod.fst).Nodup) {p : String × B} (hp : p ∈ d) :
    d.lookup p.1 = some p.2 := by
  induction d with
  | nil => simp at hp
  | cons q rest ih =>
    rw [List.map_cons, List.nodup_cons] at hn
    rcases List.mem_cons.mp hp with h | h
    · subst h
      rw [lookup_cons_pair, if_pos rfl]
    · rw [lookup_cons_pair]
      have hne : p.1 ≠ q.1 := by
        intro hcontra
        exact hn.1 (hcontra ▸ List.mem_map_of_mem Prod.fst h)
      rw [if_neg hne]
      exact ih hn.2 h

theorem lookup_map_other {B : Type} (k : String) (v : B) (d : List (String × B))
    (k2 : String) (hne : k2 ≠ k) :
    (d.map (fun p => if p.1 = k then (k, v) else p)).lookup k2 = d.lookup k2 := by
  induction d with
  | nil => rfl
  | cons p rest ih =>
    rw [List.map_cons, lookup_cons_pair, lookup_cons_pair]
    by_cases hp : p.1 = k
    · rw [if_pos hp]
      have h1 : k2 ≠ (k, v).1 := hne
      have h2 : k2 ≠ p.1 := by rw [hp]; exact hne
      rw [if_neg h1, if_neg h2, ih]
    · rw [if_neg hp]
      by_cases h2 : k2 = p.1
      · rw [if_pos h2, if_pos h2]
      · rw [if_neg h2, if_neg h2, ih]

theorem lookup_map_overwrite {B : Type} (k : String) (v : B)
    (d : List (String × B)) (hany : d.any (fun p => p.1 = k) = true) :
    (d.map (fun p => if p.1 = k then (k, v) else p)).lookup k = some v := by
  induction d with
  | nil => simp at hany
  | cons p rest ih =>
    rw [List.map_cons, lookup_cons_pair]
    by_cases hp : p.1 = k
    · rw [if_pos hp]
      rw [if_pos rfl]
    · rw [if_neg hp]
      have h2 : k ≠ p.1 := fun hc => hp hc.symm
      rw [if_neg h2]
      apply ih
      simp only [List.any_cons, Bool.or_eq_true, decide_eq_true_eq] at hany
      rcases hany with h | h
      · exact absurd h hp
      · exact h

theorem lookup_append_fresh {B : Type} (k : String) (v : B)
    (d : List (String × B)) (hany : d.any (fun p => p.1 = k) = false)
    (k2 : String) :
    ((d ++ [(k, v)]).lookup k2) = if k2 = k then some v else d.lookup k2 := by
  induction d with
  | nil =>
    rw [List.nil_append, lookup_cons]
  | cons p rest ih =>
    simp only [List.any_cons, Bool.or_eq_false_iff, decide_eq_false_iff_not] at hany
    rw [List.cons_append, lookup_cons_pair, lookup_cons_pair]
    by_cases h2 : k2 = p.1
    · have hk : k2 ≠ k := by
        rw [h2]
        exact hany.1
      rw [if_neg hk, if_pos h2, if_pos h2]
    · rw [if_neg h2, if_neg h2]
      exact ih hany.2

theorem lookup_pyDictSet {B : Type} (d : List (String × B)) (k : String) (v : B)
    (k2 : String) :
    (pyDictSet d k v).lookup k2 = if k2 = k then some v else d.lookup k2 := by
  unfold pyDictSet
  by_cases hany : d.any (fun p => p.1 = k) = true
  · rw [if_pos hany]
    by_cases h2 : k2 = k
    · rw [if_pos h2, h2]
      exact lookup_map_overwrite k v d hany
    · rw [if_neg h2]
      exact lookup_map_other k v d k2 h2
  · rw [if_neg hany]
    have hf : d.any (fun p => p.1 = k) = false := by
      cases hb : d.any (fun p => p.1 = k)
      · rfl
      · exact absurd hb hany
    exact lookup_append_fresh k v d hf k2

/-! ## C7: the rolling history cap -/

/-- C7: `save_conversation_history` writes exactly the last
`min (length, 50)` entries of the history, in their original order (a suffix
of the input), so the persisted rolling array never holds more than 50
entries. -/
theorem C7_rolling_history_cap (history : List ConfigValue) :
    saveConversationHistory history = history.drop (history.length - 50) ∧
    (saveConversationHistory history).length = min history.length 50 ∧
    saveConversationHistory history <:+ history ∧
    (saveConversationHistory history).length ≤ 50 := by
  unfold saveConversationHistory
  by_cases h : history.length > 50
  · rw [if_pos h]
    refine ⟨rfl, ?_, List.drop_suffix _ _, ?_⟩
    · rw [List.length_drop]
      omega
    · rw [List.length_drop]
      omega
  · rw [if_neg h]
    refine ⟨?_, ?_, List.suffix_refl _, ?_⟩
    · rw [Nat.sub_eq_zero_of_le (by omega), List.drop_zero]
    · omega
    · omega

/-! ## C4: session round-trip -/

/-- C4: saving a session and loading it back returns a record whose
`history` entry is the saved history and whose `metadata` entry is the saved
metadata mapping, for every JSON-representable history and metadata. -/
theorem C4_session_round_trip (history : List ConfigValue) (timestamp : String)
    (metadata : List (String × ConfigValue)) :
    (loadSession (saveSession history timestamp (some metadata))).get "history" =
      some (ConfigValue.arr history) ∧
    (loadSession (saveSession history timestamp (some metadata))).get "metadata" =
      some (ConfigValue.obj metadata) := by
  constructor <;> rfl

/-! ## C6: soft failure of `load_config` -/

/-- C6: `load_config` returns the empty mapping — raising nothing — when the
configuration file is missing, fails to parse as JSON, or fails to read at
all; on success it returns the parsed document with environment substitution
applied.  Totality of `loadConfig` is the no-exception guarantee: every file
state yields a value. -/
theorem C6_load_config_soft_fail (env : Env) :
    loadConfig env ConfigFileState.missing = ConfigValue.obj [] ∧
    (∀ m, loadConfig env (ConfigFileState.invalidJson m) = ConfigValue.obj []) ∧
    (∀ m, loadConfig env (ConfigFileState.readFailure m) = ConfigValue.obj []) ∧
    (∀ d, loadConfig env (ConfigFileState.parsed d) = substituteEnvVars env d) :=
  ⟨rfl, fun _ => rfl, fun _ => rfl, fun _ => rfl⟩

/-! ## C8: the CLI error-handling decorator -/

/-- C8: for every wrapped command outcome, `handle_command_errors` passes a
normal return through unchanged (process exit 0), and catches every raised
exception — each class of the Xerus taxonomy and any other `Exception` —
printing its formatted error panel and exiting with status 1. -/
theorem C8_handle_command_errors {α : Type} :
    (∀ v : α, handleCommandErrors (CommandOutcome.returns v) =
      WrapperResult.returned v) ∧
    (∀ e : PyException,
      handleCommandErrors (CommandOutcome.raises e : CommandOutcome α) =
        WrapperResult.exited 1 (exceptionDisplay e)) :=
  ⟨fun _ => rfl, fun _ => rfl⟩

/-! ## C1: missing `manager_agent` configuration -/

/-- C1: when the loaded configuration has no `manager_agent` entry — the key
absent or mapped to an empty mapping — `create_manager_agent` raises
`ValueError("Manager agent configuration missing")`.  The conclusion holds
for every `setupAllToolAgents` and `createClient`, so the error is raised
before any tool agent or model client is constructed: no behaviour of those
steps can reach the result. -/
theorem C1_missing_manager_agent_raises {Client Agent : Type}
    (fileState : ConfigFileState) (env : Env)
    (setupAllToolAgents : ConfigValue → ConfigValue → List Agent)
    (createClient : Option ConfigValue → Option ConfigValue → Option ConfigValue →
      Except PyException Client)
    (h : (loadConfig env fileState).get "manager_agent" = none ∨
         (loadConfig env fileState).get "manager_agent" = some (ConfigValue.obj [])) :
    createManagerAgent fileState env setupAllToolAgents createClient =
      Except.error (PyException.valueError "Manager agent configuration missing") := by
  unfold createManagerAgent
  rcases h with h | h <;>
    simp [ConfigValue.getD, h, ConfigValue.truthy, Option.getD]

/-- Witness for C1 at a concrete input: with the config file missing the
loaded configuration is `{}`, `manager_agent` is absent, and assembly fails
with the typed error. -/
theorem C1_witness :
    createManagerAgent ConfigFileState.missing (fun _ => none)
      (fun _ _ => ([] : List Unit)) (fun _ _ _ => Except.ok ()) =
      Except.error (PyException.valueError "Manager agent configuration missing") :=
  C1_missing_manager_agent_raises ConfigFileState.missing (fun _ => none)
    (fun _ _ => ([] : List Unit)) (fun _ _ _ => Except.ok ()) (Or.inl rfl)

/-! ## C10: `parse_kwargs` -/

theorem parseKwargsAux_ok_iff (raw : List String) :
    ∀ acc, (∃ d, parseKwargsAux acc raw = Except.ok d) ↔
      ∀ arg ∈ raw, arg.data.contains '=' = true := by
  induction raw with
  | nil =>
    intro acc
    constructor
    · intro _ arg harg
      simp at harg
    · intro _
      exact ⟨acc, rfl⟩
  | cons arg rest ih =>
    intro acc
    unfold parseKwargsAux
    by_cases hc : arg.data.contains '=' = false
    · rw [if_pos hc]
      constructor
      · intro ⟨d, hd⟩
        exact absurd hd (by simp)
      · intro hall
        have := hall arg (List.mem_cons_self arg rest)
        rw [this] at hc
        exact absurd hc (by simp)
    · rw [if_neg hc]
      have hc2 : arg.data.contains '=' = true := by
        cases hb : arg.data.contains '='
        · exact absurd hb hc
        · rfl
      constructor
      · intro ⟨d, hd⟩
        intro a ha
        rcases List.mem_cons.mp ha with h | h
        · rw [h]
          exact hc2
        · exact ((ih _).mp ⟨d, hd⟩) a h
      · intro hall
        exact (ih _).mpr (fun a ha => hall a (List.mem_cons_of_mem arg ha))

theorem parseKwargsAux_lookup (raw : List String) :
    ∀ acc d, parseKwargsAux acc raw = Except.ok d →
      ∀ k, d.lookup k = (lastAssign k raw).or (acc.lookup k) := by
  induction raw with
  | nil =>
    intro acc d hd k
    unfold parseKwargsAux at hd
    injection hd with hd
    rw [← hd]
    rfl
  | cons arg rest ih =>
    intro acc d hd k
    unfold parseKwargsAux at hd
    by_cases hc : arg.data.contains '=' = false
    · rw [if_pos hc] at hd
      exact absurd hd (by simp)
    · rw [if_neg hc] at hd
      have hstep := ih _ d hd k
      rw [hstep, lookup_pyDictSet]
      have hcons : lastAssign k (arg :: rest) =
          match lastAssign k rest with
          | some v => some v
          | none => if argKey arg = k then some (argVal arg) else none := rfl
      rw [hcons]
      cases hlast : lastAssign k rest with
      | some v => simp [Option.or]
      | none =>
        by_cases hk : argKey arg = k
        · simp [hk, Option.or]
        · have hk2 : k ≠ argKey arg := fun hcon => hk hcon.symm
          simp [hk, hk2, Option.or]

/-- C10: `parse_kwargs` returns a dictionary mapping each key to the value
of the last `key=value` argument carrying it — each element split at its
first `=` only, so values may contain `=` — and raises `ValueError` exactly
when some element contains no `=`. -/
theorem C10_parse_kwargs (raw : List String) :
    ((∃ d, parseKwargs raw = Except.ok d) ↔
      ∀ arg ∈ raw, arg.data.contains '=' = true) ∧
    (∀ d, parseKwargs raw = Except.ok d →
      ∀ k, d.lookup k = lastAssign k raw) := by
  constructor
  · exact parseKwargsAux_ok_iff raw []
  · intro d hd k
    have := parseKwargsAux_lookup raw [] d hd k
    rw [this]
    cases lastAssign k raw <;> rfl

/-- Witness for C10 at a concrete input: `["a=1", "b=2=3", "a=4"]` parses,
the value of `b` keeps its embedded `=`, and the later `a=4` overwrites
`a=1`. -/
theorem C10_witness :
    (∃ d, parseKwargs ["a=1", "b=2=3", "a=4"] = Except.ok d) ∧
    ([("a", "4"), ("b", "2=3")] : List (String × String)).lookup "b" =
      lastAssign "b" ["a=1", "b=2=3", "a=4"] ∧
    ([("a", "4"), ("b", "2=3")] : List (String × String)).lookup "a" =
      lastAssign "a" ["a=1", "b=2=3", "a=4"] := by
  refine ⟨(C10_parse_kwargs ["a=1", "b=2=3", "a=4"]).1.mpr (by decide), ?_, ?_⟩
  · exact (C10_parse_kwargs ["a=1", "b=2=3", "a=4"]).2
      [("a", "4"), ("b", "2=3")] (by rfl) "b"
  · exact (C10_parse_kwargs ["a=1", "b=2=3", "a=4"]).2
      [("a", "4"), ("b", "2=3")] (by rfl) "a"

/-! ## C9: tool deduplication in `create_agent` -/

theorem lastToolNamed_name {n : String} {l : List Tool} {t : Tool}
    (h : lastToolNamed n l = some t) : t.name = n := by
  induction l generalizing t with
  | nil => simp [lastToolNamed] at h
  | cons u rest ih =>
    have hcons : lastToolNamed n (u :: rest) =
        match lastToolNamed n rest with
        | some w => some w
        | none => if u.name = n then some u else none := rfl
    rw [hcons] at h
    cases hlast : lastToolNamed n rest with
    | some w =>
      rw [hlast] at h
      injection h with h2
      rw [← h2]
      exact ih hlast
    | none =>
      rw [hlast] at h
      by_cases hu : u.name = n
      · rw [if_pos hu] at h
        injection h with h2
        rw [← h2]
        exact hu
      · rw [if_neg hu] at h
        exact absurd h (by simp)

theorem lastToolNamed_isSome_of_mem {t : Tool} {l : List Tool} (h : t ∈ l) :
    (lastToolNamed t.name l).isSome = true := by
  induction l with
  | nil => simp at h
  | cons u rest ih =>
    have hcons : lastToolNamed t.name (u :: rest) =
        match lastToolNamed t.name rest with
        | some w => some w
        | none => if u.name = t.name then some u else none := rfl
    rw [hcons]
    cases hlast : lastToolNamed t.name rest with
    | some w => simp
    | none =>
      rcases List.mem_cons.mp h with h1 | h1
      · rw [← h1, if_pos rfl]
        simp
      · have := ih h1
        rw [hlast] at this
        simp at this

theorem nodup_keys_pyDictSet {B : Type} {d : List (String × B)} (k : String)
    (v : B) (hn : (d.map Prod.fst).Nodup) :
    ((pyDictSet d k v).map Prod.fst).Nodup := by
  unfold pyDictSet
  by_cases hany : d.any (fun p => p.1 = k) = true
  · rw [if_pos hany]
    have hkeys : (d.map (fun p => if p.1 = k then (k, v) else p)).map Prod.fst =
        d.map Prod.fst := by
      rw [List.map_map]
      apply List.map_congr_left
      intro p _
      by_cases hpk : p.1 = k
      · simp [hpk]
      · simp [hpk]
    rw [hkeys]
    exact hn
  · rw [if_neg hany]
    rw [List.map_append]
    have hk : k ∉ d.map Prod.fst := by
      intro hmem
      rcases List.mem_map.mp hmem with ⟨p, hp, hpk⟩
      apply hany
      rw [List.any_eq_true]
      exact ⟨p, hp, by simp [hpk]⟩
    rw [List.nodup_append]
    refine ⟨hn, List.nodup_singleton k, ?_⟩
    intro a ha hb
    rw [List.mem_singleton.mp hb] at ha
    exact hk ha

theorem names_pyDictSet {d : List (String × Tool)} (k : String) (v : Tool)
    (hnames : ∀ p ∈ d, p.2.name = p.1) (hv : v.name = k) :
    ∀ p ∈ pyDictSet d k v, p.2.name = p.1 := by
  unfold pyDictSet
  by_cases hany : d.any (fun p => p.1 = k) = true
  · rw [if_pos hany]
    intro p hp
    rcases List.mem_map.mp hp with ⟨q, hq, hqp⟩
    by_cases hqk : q.1 = k
    · rw [← hqp]
      simp only [hqk, if_pos]
      exact hv
    · rw [← hqp]
      simp only [hqk, if_neg, if_false]
      exact hnames q hq
  · rw [if_neg hany]
    intro p hp
    rcases List.mem_append.mp hp with h | h
    · exact hnames p h
    · rw [List.mem_singleton.mp h]
      exact hv

theorem uniqueToolsDict_spec (avail : List Tool) :
    ∀ acc : List (String × Tool), (acc.map Prod.fst).Nodup →
      (∀ p ∈ acc, p.2.name = p.1) →
      (((avail.foldl (fun d t => pyDictSet d t.name t) acc).map Prod.fst).Nodup ∧
       (∀ p ∈ avail.foldl (fun d t => pyDictSet d t.name t) acc, p.2.name = p.1) ∧
       (∀ k, (avail.foldl (fun d t => pyDictSet d t.name t) acc).lookup k =
         (lastToolNamed k avail).or (acc.lookup k))) := by
  induction avail with
  | nil =>
    intro acc hn hnames
    exact ⟨hn, hnames, fun k => rfl⟩
  | cons t rest ih =>
    intro acc hn hnames
    rw [List.foldl_cons]
    have hn2 := nodup_keys_pyDictSet t.name t hn
    have hnames2 := names_pyDictSet t.name t hnames rfl
    obtain ⟨ha, hb, hc⟩ := ih (pyDictSet acc t.name t) hn2 hnames2
    refine ⟨ha, hb, ?_⟩
    intro k
    rw [hc k, lookup_pyDictSet]
    have hcons : lastToolNamed k (t :: rest) =
        match lastToolNamed k rest with
        | some w => some w
        | none => if t.name = k then some t else none := rfl
    rw [hcons]
    cases hlast : lastToolNamed k rest with
    | some w => simp [Option.or]
    | none =>
      by_cases hk : t.name = k
      · simp [hk, Option.or]
      · have hk2 : k ≠ t.name := fun hcon => hk hcon.symm
        simp [hk, hk2, Option.or]

/-- C9: the tool list `create_agent` hands to the `CodeAgent` constructor
carries pairwise distinct tool names; each of its tools is exactly the tool
loaded last among those sharing its name; and every loaded tool's name is
still represented.  So tools loaded later replace earlier ones with the same
name, and no duplicate name reaches the agent. -/
theorem C9_unique_tools (availableTools : List Tool) :
    ((uniqueToolValues availableTools).map Tool.name).Nodup ∧
    (∀ t ∈ uniqueToolValues availableTools,
      lastToolNamed t.name availableTools = some t) ∧
    (∀ t ∈ availableTools,
      ∃ u ∈ uniqueToolValues availableTools, u.name = t.name) := by
  obtain ⟨hnodup, hnames, hlook⟩ :=
    uniqueToolsDict_spec availableTools [] (by simp) (by simp)
  have hlook2 : ∀ k, (uniqueToolsDict availableTools).lookup k =
      lastToolNamed k availableTools := by
    intro k
    have := hlook k
    rw [uniqueToolsDict]
    rw [this]
    cases lastToolNamed k availableTools <;> rfl
  have hkeys : (uniqueToolValues availableTools).map Tool.name =
      (uniqueToolsDict availableTools).map Prod.fst := by
    rw [uniqueToolValues, List.map_map]
    exact List.map_congr_left (fun p hp => hnames p hp)
  refine ⟨?_, ?_, ?_⟩
  · rw [hkeys]
    exact hnodup
  · intro t ht
    rcases List.mem_map.mp ht with ⟨p, hp, hpt⟩
    have hlookup : (uniqueToolsDict availableTools).lookup p.1 = some p.2 :=
      lookup_eq_some_of_mem_of_nodup hnodup hp
    rw [hlook2 p.1] at hlookup
    rw [← hpt, hnames p hp]
    exact hlookup
  · intro t ht
    have hsome := lastToolNamed_isSome_of_mem ht
    rcases Option.isSome_iff_exists.mp hsome with ⟨u, hu⟩
    refine ⟨u, ?_, lastToolNamed_name hu⟩
    have : (uniqueToolsDict availableTools).lookup t.name = some u := by
      rw [hlook2 t.name]
      exact hu
    have hmem := mem_of_lookup_eq_some this
    rw [uniqueToolValues]
    exact List.mem_map.mpr ⟨(t.name, u), hmem, rfl⟩

/-- Witness for C9 at a concrete input: among three tools where the first
and third share the name `a`, the third (loaded last) is the one the agent
receives, and `b` is still represented. -/
theorem C9_witness :
    lastToolNamed "a" [Tool.mk "a" 0, Tool.mk "b" 1, Tool.mk "a" 2] =
      some (Tool.mk "a" 2) ∧
    (∃ u ∈ uniqueToolValues [Tool.mk "a" 0, Tool.mk "b" 1, Tool.mk "a" 2],
      u.name = "b") := by
  constructor
  · exact (C9_unique_tools [Tool.mk "a" 0, Tool.mk "b" 1, Tool.mk "a" 2]).2.1
      (Tool.mk "a" 2) (by decide)
  · exact (C9_unique_tools [Tool.mk "a" 0, Tool.mk "b" 1, Tool.mk "a" 2]).2.2
      (Tool.mk "b" 1) (by decide)

/-! ## C5: dispatch of `load_tool_from_spec` -/

/-- C5: `load_tool_from_spec` raises a typed `ToolLoadError` exactly when the
parsed specification is of unknown type — loading nothing, since the result
is the error alone — and on every recognised classification it dispatches to
the loader of that type with the parsed arguments. -/
theorem C5_load_tool_dispatch (registry fileExists : String → Bool)
    (toolSpec : String) :
    ((∃ e, loadToolFromSpec registry fileExists toolSpec = Except.error e) ↔
      (∃ s, parseToolSpec registry fileExists toolSpec = ParsedSpec.unknown s)) ∧
    (∀ n, parseToolSpec registry fileExists toolSpec = ParsedSpec.builtIn n →
      loadToolFromSpec registry fileExists toolSpec =
        Except.ok (ToolDispatch.builtIn n)) ∧
    (∀ p, parseToolSpec registry fileExists toolSpec = ParsedSpec.localFile p →
      loadToolFromSpec registry fileExists toolSpec =
        Except.ok (ToolDispatch.localFile p)) ∧
    (∀ r, parseToolSpec registry fileExists toolSpec = ParsedSpec.hub r →
      loadToolFromSpec registry fileExists toolSpec =
        Except.ok (ToolDispatch.hub r)) ∧
    (∀ i nm ds, parseToolSpec registry fileExists toolSpec = ParsedSpec.space i nm ds →
      loadToolFromSpec registry fileExists toolSpec =
        Except.ok (ToolDispatch.space i nm ds)) ∧
    (∀ s, parseToolSpec registry fileExists toolSpec = ParsedSpec.collection s →
      loadToolFromSpec registry fileExists toolSpec =
        Except.ok (ToolDispatch.collection s)) ∧
    (∀ s, parseToolSpec registry fileExists toolSpec = ParsedSpec.unknown s →
      loadToolFromSpec registry fileExists toolSpec =
        Except.error (XerusExc.toolLoadError
          ("Unknown tool specification format: " ++ toolSpec)
          (some ("Use one of the supported formats: built-in name, local file path, " ++
                 "hub:repo_id, space:space_id[:name:desc], collection:slug")))) := by
  cases hp : parseToolSpec registry fileExists toolSpec <;>
    refine ⟨?_, ?_, ?_, ?_, ?_, ?_, ?_⟩ <;>
    simp [loadToolFromSpec, hp]

/-- Witness for C5 at a concrete input: the unclassifiable specification
`"nonsense"` (no colon, not registered, no such file) raises the typed
`ToolLoadError` with its recovery hint. -/
theorem C5_witness :
    loadToolFromSpec defaultRegistry (fun _ => false) "nonsense" =
      Except.error (XerusExc.toolLoadError
        ("Unknown tool specification format: " ++ "nonsense")
        (some ("Use one of the supported formats: built-in name, local file path, " ++
               "hub:repo_id, space:space_id[:name:desc], collection:slug"))) :=
  (C5_load_tool_dispatch defaultRegistry (fun _ => false) "nonsense").2.2.2.2.2.2
    "nonsense" (by decide)

/-! ## C2: the tool-specification grammar -/

theorem contains_false_forall {l : List Char} {a : Char}
    (h : l.contains a = false) : ∀ c ∈ l, (c != a) = true := by
  intro c hc
  cases hb : c == a
  · simp [bne, hb]
  · exfalso
    have hca : c = a := eq_of_beq hb
    subst hca
    have hmem := List.elem_eq_true_of_mem hc
    rw [List.contains, hmem] at h
    exact Bool.true_eq_false.mp h

theorem splitColon2_one (s : String) (a b : List Char)
    (hs : s.data = a ++ ':' :: b) (ha : ∀ c ∈ a, (c != ':') = true)
    (hb : ∀ c ∈ b, (c != ':') = true) :
    splitColon2 s = [String.mk a, String.mk b] := by
  unfold splitColon2
  rw [hs]
  simp only [dropWhile_append_sat _ a ':' b ha rfl,
    takeWhile_append_sat _ a ':' b ha rfl,
    dropWhile_all _ b hb, takeWhile_all _ b hb]

theorem splitColon2_two (s : String) (a b c : List Char)
    (hs : s.data = a ++ ':' :: (b ++ ':' :: c))
    (ha : ∀ x ∈ a, (x != ':') = true) (hb : ∀ x ∈ b, (x != ':') = true) :
    splitColon2 s = [String.mk a, String.mk b, String.mk c] := by
  unfold splitColon2
  rw [hs]
  simp only [dropWhile_append_sat _ a ':' (b ++ ':' :: c) ha rfl,
    takeWhile_append_sat _ a ':' (b ++ ':' :: c) ha rfl,
    dropWhile_append_sat _ b ':' c hb rfl,
    takeWhile_append_sat _ b ':' c hb rfl]

theorem splitColon1_one (s : String) (a b : List Char)
    (hs : s.data = a ++ ':' :: b) (ha : ∀ c ∈ a, (c != ':') = true) :
    splitColon1 s = [String.mk a, String.mk b] := by
  unfold splitColon1
  rw [hs]
  simp only [dropWhile_append_sat _ a ':' b ha rfl,
    takeWhile_append_sat _ a ':' b ha rfl]

/-- Counterexample to C2 as frozen: the claim says a specification ending in
`.py` (such as `"./t.py"`) parses as a local tool, but `parse_tool_spec` also
requires `os.path.exists` to hold; on a filesystem where `./t.py` does not
exist the same string parses as unknown. -/
theorem C2_counterexample :
    parseToolSpec defaultRegistry (fun _ => false) "./t.py" =
      ParsedSpec.unknown "./t.py" ∧
    ParsedSpec.unknown "./t.py" ≠ ParsedSpec.localFile "./t.py" := by
  constructor
  · rfl
  · intro h
    exact ParsedSpec.noConfusion h

/-- C2 (amended): `parse_tool_spec` classifies by the fixed grammar, with the
local-file case additionally requiring the path to exist on the filesystem:
a colon-free name in the registry is built-in; a colon-free string that is an
existing path ending in `.py` is local; any other colon-free string is
unknown; `hub:r` is hub with repo id `r`; `collection:s` is a collection;
`space:i:n:d` is a space with that id, name and description; and a string
with a colon whose lowercased first segment is none of `hub`, `space`,
`collection` is unknown. -/
theorem C2_parse_tool_spec_grammar (registry fileExists : String → Bool) :
    (∀ name, name.data.contains ':' = false → registry name = true →
      parseToolSpec registry fileExists name = ParsedSpec.builtIn name) ∧
    (∀ path, path.data.contains ':' = false → registry path = false →
      fileExists path = true → strEndsWith path ".py" = true →
      parseToolSpec registry fileExists path = ParsedSpec.localFile path) ∧
    (∀ spec, spec.data.contains ':' = false → registry spec = false →
      (fileExists spec && strEndsWith spec ".py") = false →
      parseToolSpec registry fileExists spec = ParsedSpec.unknown spec) ∧
    (∀ repoId, repoId.data.contains ':' = false →
      parseToolSpec registry fileExists ("hub:" ++ repoId) =
        ParsedSpec.hub repoId) ∧
    (∀ slug, slug.data.contains ':' = false →
      parseToolSpec registry fileExists ("collection:" ++ slug) =
        ParsedSpec.collection slug) ∧
    (∀ spaceId nm ds, spaceId.data.contains ':' = false →
      nm.data.contains ':' = false →
      parseToolSpec registry fileExists
          ("space:" ++ spaceId ++ ":" ++ nm ++ ":" ++ ds) =
        ParsedSpec.space spaceId (some nm) (some ds)) ∧
    (∀ spec p0 rest, spec.data.contains ':' = true →
      splitColon2 spec = p0 :: rest →
      strLower p0 ≠ "hub" → strLower p0 ≠ "space" → strLower p0 ≠ "collection" →
      parseToolSpec registry fileExists spec = ParsedSpec.unknown spec) := by
  refine ⟨?_, ?_, ?_, ?_, ?_, ?_, ?_⟩
  · intro name hnc hreg
    unfold parseToolSpec
    rw [if_pos hnc, if_pos hreg]
  · intro path hnc hreg hfs hpy
    unfold parseToolSpec
    rw [if_pos hnc, if_neg (by simp [hreg]), if_pos (by simp [hfs, hpy])]
  · intro spec hnc hreg hboth
    unfold parseToolSpec
    rw [if_pos hnc, if_neg (by simp [hreg]), if_neg (by simp [hboth])]
  · intro repoId hnc
    have hdata : ("hub:" ++ repoId).data = 'h' :: 'u' :: 'b' :: ':' :: repoId.data := by
      simp [String.data_append]
    have hcontains : ("hub:" ++ repoId).data.contains ':' = true := by
      rw [hdata]
      rfl
    have hsplit : splitColon2 ("hub:" ++ repoId) = ["hub", repoId] := by
      have := splitColon2_one ("hub:" ++ repoId) ['h', 'u', 'b'] repoId.data
        (by rw [hdata]; rfl) (by decide) (contains_false_forall hnc)
      simpa using this
    unfold parseToolSpec
    rw [if_neg (by simp [hcontains]), hsplit]
    simp [strLower]
  · intro slug hnc
    have hdata : ("collection:" ++ slug).data =
        'c' :: 'o' :: 'l' :: 'l' :: 'e' :: 'c' :: 't' :: 'i' :: 'o' :: 'n' :: ':' ::
          slug.data := by
      simp [String.data_append]
    have hcontains : ("collection:" ++ slug).data.contains ':' = true := by
      rw [hdata]
      rfl
    have hsplit : splitColon2 ("collection:" ++ slug) = ["collection", slug] := by
      have := splitColon2_one ("collection:" ++ slug)
        ['c', 'o', 'l', 'l', 'e', 'c', 't', 'i', 'o', 'n'] slug.data
        (by rw [hdata]; rfl) (by decide) (contains_false_forall hnc)
      simpa using this
    unfold parseToolSpec
    rw [if_neg (by simp [hcontains]), hsplit]
    simp [strLower]
  · intro spaceId nm ds hi hn
    have hdata : ("space:" ++ spaceId ++ ":" ++ nm ++ ":" ++ ds).data =
        's' :: 'p' :: 'a' :: 'c' :: 'e' :: ':' ::
          (spaceId.data ++ ':' :: (nm.data ++ ':' :: ds.data)) := by
      simp [String.data_append]
    have hcontains :
        ("space:" ++ spaceId ++ ":" ++ nm ++ ":" ++ ds).data.contains ':' = true := by
      rw [hdata]
      rfl
    have hsplit : splitColon2 ("space:" ++ spaceId ++ ":" ++ nm ++ ":" ++ ds) =
        ["space", spaceId, String.mk (nm.data ++ ':' :: ds.data)] := by
      have := splitColon2_two ("space:" ++ spaceId ++ ":" ++ nm ++ ":" ++ ds)
        ['s', 'p', 'a', 'c', 'e'] spaceId.data (nm.data ++ ':' :: ds.data)
        (by rw [hdata]; rfl) (by decide) (contains_false_forall hi)
      simpa using this
    have hsplit1 : splitColon1 (String.mk (nm.data ++ ':' :: ds.data)) = [nm, ds] := by
      have := splitColon1_one (String.mk (nm.data ++ ':' :: ds.data)) nm.data ds.data
        rfl (contains_false_forall hn)
      simpa using this
    unfold parseToolSpec
    rw [if_neg (by simp [hcontains]), hsplit]
    simp only [strLower]
    rw [if_neg (by decide), if_pos (by decide), hsplit1]
  · intro spec p0 rest hc hsplit hhub hspace hcoll
    unfold parseToolSpec
    rw [if_neg (fun hfalse => Bool.true_eq_false.mp (hc ▸ hfalse)), hsplit]
    simp [hhub, hspace, hcoll]

/-- Witness for C2 (amended) at concrete inputs: a registered built-in name,
an existing `.py` path, a hub form and a space form each classify as
specified. -/
theorem C2_witness :
    parseToolSpec defaultRegistry (fun _ => false) "web_search" =
      ParsedSpec.builtIn "web_search" ∧
    parseToolSpec defaultRegistry (fun p => p = "./t.py") "./t.py" =
      ParsedSpec.localFile "./t.py" ∧
    parseToolSpec defaultRegistry (fun _ => false) ("hub:" ++ "org/name") =
      ParsedSpec.hub "org/name" ∧
    parseToolSpec defaultRegistry (fun _ => false)
        ("space:" ++ "id" ++ ":" ++ "nm" ++ ":" ++ "some desc") =
      ParsedSpec.space "id" (some "nm") (some "some desc") := by
  refine ⟨?_, ?_, ?_, ?_⟩
  · exact (C2_parse_tool_spec_grammar defaultRegistry (fun _ => false)).1
      "web_search" (by decide) (by decide)
  · exact (C2_parse_tool_spec_grammar defaultRegistry (fun p => p = "./t.py")).2.1
      "./t.py" (by decide) (by decide) (by decide) (by decide)
  · exact (C2_parse_tool_spec_grammar defaultRegistry (fun _ => false)).2.2.2.1
      "org/name" (by decide)
  · exact (C2_parse_tool_spec_grammar defaultRegistry (fun _ => false)).2.2.2.2.2.1
      "id" "nm" "some desc" (by decide) (by decide)

/-! ## C3: environment-variable substitution -/

theorem matchPlaceholder_cons_ne {c : Char} (hc : c ≠ '$') (cs : List Char) :
    matchPlaceholder (c :: cs) = none := by
  cases cs with
  | nil => rfl
  | cons c2 rest =>
    have hstep : matchPlaceholder (c :: c2 :: rest) =
        if c = '$' then if c2 = '\x7b' then findVar rest else none else none := rfl
    rw [hstep, if_neg hc]

theorem matchPlaceholder_open (rest : List Char) :
    matchPlaceholder ('$' :: '\x7b' :: rest) = findVar rest := rfl

theorem substChars_nil (env : Env) : substChars env [] = [] := by
  unfold substChars
  rfl

theorem substChars_eq (env : Env) (c : Char) (cs : List Char) :
    substChars env (c :: cs) =
      match matchPlaceholder (c :: cs) with
      | some (name, dflt, tail) =>
        (envGet env name (dflt.getD "")).data ++ substChars env tail
      | none => c :: substChars env cs := by
  conv_lhs => unfold substChars
  split
  case h_1 name dflt tail heq => rw [heq]
  case h_2 heq => rw [heq]

theorem substChars_cons_ne (env : Env) {c : Char} (hc : c ≠ '$')
    (cs : List Char) :
    substChars env (c :: cs) = c :: substChars env cs := by
  rw [substChars_eq, matchPlaceholder_cons_ne hc]

theorem substChars_match (env : Env) (c : Char) (cs : List Char) (name : String)
    (dflt : Option String) (tail : List Char)
    (h : matchPlaceholder (c :: cs) = some (name, dflt, tail)) :
    substChars env (c :: cs) =
      (envGet env name (dflt.getD "")).data ++ substChars env tail := by
  rw [substChars_eq, h]

theorem findVar_plain (name : String) (l : List Char)
    (hne : name.data.isEmpty = false)
    (hname : ∀ c ∈ name.data, isNameChar c = true) :
    findVar (name.data ++ '\x7d' :: l) = some (name, none, l) := by
  unfold findVar
  rw [takeWhile_append_sat _ name.data '\x7d' l hname (by decide),
    dropWhile_append_sat _ name.data '\x7d' l hname (by decide),
    if_neg (by simp [hne])]
  rfl

theorem findVar_dflt (name dflt : String) (l : List Char)
    (hne : name.data.isEmpty = false)
    (hname : ∀ c ∈ name.data, isNameChar c = true)
    (hd : ∀ c ∈ dflt.data, isNonBrace c = true) :
    findVar (name.data ++ ':' :: (dflt.data ++ '\x7d' :: l)) =
      some (name, some dflt, l) := by
  unfold findVar
  rw [takeWhile_append_sat _ name.data ':' (dflt.data ++ '\x7d' :: l) hname
      (by decide),
    dropWhile_append_sat _ name.data ':' (dflt.data ++ '\x7d' :: l) hname
      (by decide),
    if_neg (by simp [hne])]
  simp only [dropWhile_append_sat _ dflt.data '\x7d' l hd rfl,
    takeWhile_append_sat _ dflt.data '\x7d' l hd rfl]

theorem substChars_var (env : Env) (name : String) (l : List Char)
    (hne : name.data.isEmpty = false)
    (hname : ∀ c ∈ name.data, isNameChar c = true) :
    substChars env ('$' :: '\x7b' :: (name.data ++ '\x7d' :: l)) =
      ((env name).getD "").data ++ substChars env l := by
  have hm : matchPlaceholder ('$' :: '\x7b' :: (name.data ++ '\x7d' :: l)) =
      some (name, none, l) := by
    rw [matchPlaceholder_open]
    exact findVar_plain name l hne hname
  exact substChars_match env '$' ('\x7b' :: (name.data ++ '\x7d' :: l))
    name none l hm

theorem substChars_varDflt (env : Env) (name dflt : String) (l : List Char)
    (hne : name.data.isEmpty = false)
    (hname : ∀ c ∈ name.data, isNameChar c = true)
    (hd : ∀ c ∈ dflt.data, isNonBrace c = true) :
    substChars env ('$' :: '\x7b' :: (name.data ++ ':' :: (dflt.data ++ '\x7d' :: l))) =
      ((env name).getD dflt).data ++ substChars env l := by
  have hm : matchPlaceholder
      ('$' :: '\x7b' :: (name.data ++ ':' :: (dflt.data ++ '\x7d' :: l))) =
      some (name, some dflt, l) := by
    rw [matchPlaceholder_open]
    exact findVar_dflt name dflt l hne hname hd
  exact substChars_match env '$'
    ('\x7b' :: (name.data ++ ':' :: (dflt.data ++ '\x7d' :: l)))
    name (some dflt) l hm

theorem substChars_lit (env : Env) (xs : List Char)
    (hxs : ∀ c ∈ xs, (c != '$') = true) (l : List Char) :
    substChars env (xs ++ l) = xs ++ substChars env l := by
  induction xs with
  | nil => rfl
  | cons x xt ih =>
    have hx : x ≠ '$' := by
      have := hxs x (List.mem_cons_self x xt)
      simpa [bne_iff_ne] using this
    rw [List.cons_append, substChars_cons_ne env hx,
      ih (fun c hc => hxs c (List.mem_cons_of_mem x hc))]
    rfl

theorem substChars_template (env : Env) (pieces : List TemplatePiece)
    (hv : ∀ p ∈ pieces, validPiece p = true) :
    substChars env (renderTemplate pieces).data =
      (resolveTemplate env pieces).data := by
  induction pieces with
  | nil => exact substChars_nil env
  | cons p ps ih =>
    have hvp := hv p (List.mem_cons_self p ps)
    have hvrest : ∀ q ∈ ps, validPiece q = true :=
      fun q hq => hv q (List.mem_cons_of_mem p hq)
    have ih2 := ih hvrest
    have hdata : (renderTemplate (p :: ps)).data =
        (renderPiece p).data ++ (renderTemplate ps).data := by
      simp [renderTemplate, String.data_append]
    have hres : (resolveTemplate env (p :: ps)).data =
        (resolvePiece env p).data ++ (resolveTemplate env ps).data := by
      simp [resolveTemplate, String.data_append]
    rw [hdata, hres]
    cases p with
    | lit s =>
      have hlit : ∀ c ∈ s.data, (c != '$') = true := by
        have := hvp
        simp only [validPiece, List.all_eq_true] at this
        exact this
      show substChars env (s.data ++ (renderTemplate ps).data) =
        s.data ++ (resolveTemplate env ps).data
      rw [substChars_lit env s.data hlit _, ih2]
    | var n =>
      obtain ⟨hne, hname⟩ :
          n.data.isEmpty = false ∧ ∀ c ∈ n.data, isNameChar c = true := by
        have := hvp
        simp only [validPiece, Bool.and_eq_true, Bool.not_eq_true',
          List.all_eq_true] at this
        exact this
      have hshape : (renderPiece (TemplatePiece.var n)).data ++
          (renderTemplate ps).data =
          '$' :: '\x7b' :: (n.data ++ '\x7d' :: (renderTemplate ps).data) := by
        simp [renderPiece, String.data_append]
      rw [hshape, substChars_var env n _ hne hname, ih2]
      rfl
    | varDflt n d =>
      obtain ⟨⟨hne, hname⟩, hd⟩ :
          (n.data.isEmpty = false ∧ (∀ c ∈ n.data, isNameChar c = true)) ∧
            ∀ c ∈ d.data, isNonBrace c = true := by
        have := hvp
        simp only [validPiece, Bool.and_eq_true, Bool.not_eq_true',
          List.all_eq_true] at this
        exact ⟨⟨this.1.1, this.1.2⟩, this.2⟩
      have hshape : (renderPiece (TemplatePiece.varDflt n d)).data ++
          (renderTemplate ps).data =
          '$' :: '\x7b' ::
            (n.data ++ ':' :: (d.data ++ '\x7d' :: (renderTemplate ps).data)) := by
        simp [renderPiece, String.data_append]
      rw [hshape, substChars_varDflt env n d _ hne hname hd, ih2]
      rfl

theorem substituteEnvVarsFields_eq (env : Env)
    (fields : List (String × ConfigValue)) :
    substituteEnvVarsFields env fields =
      fields.map (fun p => (p.1, substituteEnvVars env p.2)) := by
  induction fields with
  | nil => simp [substituteEnvVarsFields]
  | cons p rest ih =>
    rcases p with ⟨k, v⟩
    simp [substituteEnvVarsFields, ih]

theorem substituteEnvVarsList_eq (env : Env) (items : List ConfigValue) :
    substituteEnvVarsList env items =
      items.map (fun v => substituteEnvVars env v) := by
  induction items with
  | nil => simp [substituteEnvVarsList]
  | cons v rest ih => simp [substituteEnvVarsList, ih]

/-- C3: on a string built of literal segments (no `$`) and placeholders,
`substitute_env_vars` replaces each `$\x7bFOO\x7d` occurrence with the
environment value (empty string when unset) and each `$\x7bFOO:default\x7d`
occurrence with the environment value when set and the default otherwise;
mappings and lists are walked recursively, and non-string leaves (`null`,
booleans, numbers) are returned unchanged. -/
theorem C3_substitute_env_vars (env : Env) :
    (∀ pieces : List TemplatePiece, (∀ p ∈ pieces, validPiece p = true) →
      substituteEnvVars env (ConfigValue.str (renderTemplate pieces)) =
        ConfigValue.str (resolveTemplate env pieces)) ∧
    (∀ fields, substituteEnvVars env (ConfigValue.obj fields) =
      ConfigValue.obj (fields.map (fun p => (p.1, substituteEnvVars env p.2)))) ∧
    (∀ items, substituteEnvVars env (ConfigValue.arr items) =
      ConfigValue.arr (items.map (fun v => substituteEnvVars env v))) ∧
    substituteEnvVars env ConfigValue.null = ConfigValue.null ∧
    (∀ b, substituteEnvVars env (ConfigValue.bool b) = ConfigValue.bool b) ∧
    (∀ n, substituteEnvVars env (ConfigValue.num n) = ConfigValue.num n) := by
  refine ⟨?_, ?_, ?_, ?_, ?_, ?_⟩
  · intro pieces hv
    have hstr : substituteEnvVars env (ConfigValue.str (renderTemplate pieces)) =
        ConfigValue.str (String.mk (substChars env (renderTemplate pieces).data)) := by
      simp [substituteEnvVars]
    rw [hstr, substChars_template env pieces hv]
  · intro fields
    simp [substituteEnvVars, substituteEnvVarsFields_eq]
  · intro items
    simp [substituteEnvVars, substituteEnvVarsList_eq]
  · simp [substituteEnvVars]
  · intro b
    simp [substituteEnvVars]
  · intro n
    simp [substituteEnvVars]

/-- Witness for C3 at a concrete environment (`FOO` set to `foo`, all else
unset) and string: `a$\x7bFOO\x7d$\x7bBAR:dv\x7d-$\x7bMISSING\x7d` becomes
`afoodv-`. -/
theorem C3_witness :
    substituteEnvVars (fun n => if n = "FOO" then some "foo" else none)
        (ConfigValue.str "a$\x7bFOO\x7d$\x7bBAR:dv\x7d-$\x7bMISSING\x7d") =
      ConfigValue.str "afoodv-" := by
  have h := (C3_substitute_env_vars
      (fun n => if n = "FOO" then some "foo" else none)).1
    [TemplatePiece.lit "a", TemplatePiece.var "FOO",
     TemplatePiece.varDflt "BAR" "dv", TemplatePiece.lit "-",
     TemplatePiece.var "MISSING"]
    (by decide)
  have hr : renderTemplate
      [TemplatePiece.lit "a", TemplatePiece.var "FOO",
       TemplatePiece.varDflt "BAR" "dv", TemplatePiece.lit "-",
       TemplatePiece.var "MISSING"] =
      "a$\x7bFOO\x7d$\x7bBAR:dv\x7d-$\x7bMISSING\x7d" := by decide
  have hs : resolveTemplate (fun n => if n = "FOO" then some "foo" else none)
      [TemplatePiece.lit "a", TemplatePiece.var "FOO",
       TemplatePiece.varDflt "BAR" "dv", TemplatePiece.lit "-",
       TemplatePiece.var "MISSING"] = "afoodv-" := by decide
  rw [hr, hs] at h
  exact h

end Xerus
